import Mathlib

/-!
Verification of the Identity Redaction Pipeline (tools/redact.py, tools/extract.py)
against its natural-language specification.

The pipeline is embedded shallowly:
  * digit strings are `List Char`, byte buffers are `List Nat` (each entry < 256),
  * Python ints are `Nat` (all values involved are non-negative),
  * code that can raise is modelled with `Option` / `Except`,
  * `str(n)` and `f"{n:x}"` (minimal decimal/hex rendering of a non-negative int,
    no leading zeros) are modelled by `pyStr` / `pyHex`.

External collaborators (the pycrate BCD packer, the pycrate NAS element decoder and
the YARA scanning engine) are not part of this repository; where a claim depends on
them they are modelled from the specification, marked `Modelled from the spec:`.
-/

namespace Redact

/-- Hex value of a character, as `int(c, 16)` computes it in Python:
decimal digits, lowercase `a`-`f` and uppercase `A`-`F`; `none` for
any other character (Python raises `ValueError` there). -/
def hexVal? (c : Char) : Option Nat :=
  if 48 ≤ c.toNat ∧ c.toNat ≤ 57 then some (c.toNat - 48)
  else if 97 ≤ c.toNat ∧ c.toNat ≤ 102 then some (c.toNat - 87)
  else if 65 ≤ c.toNat ∧ c.toNat ≤ 70 then some (c.toNat - 55)
  else none

/-- Hex value with default 0 (used only under a validity guard). -/
def hexValD (c : Char) : Nat := (hexVal? c).getD 0

/-- The character is one of the characters `int(·, 16)` accepts. -/
def isHex (c : Char) : Bool := (hexVal? c).isSome

/-- The character is an ASCII decimal digit (`0`-`9`). -/
def isDecimal (c : Char) : Bool := decide (48 ≤ c.toNat ∧ c.toNat ≤ 57)

/-- Digit extraction with explicit fuel, least-significant digit first is
accumulated, so the result is most-significant first.  Mirrors the digit loop
of Python's int formatting (and of `Nat.toDigitsCore`): emit `n % base`, stop
once `n / base = 0`. -/
def pyDigitsAux (base : Nat) : Nat → Nat → List Char → List Char
  | 0, _, acc => acc
  | fuel + 1, n, acc =>
    let acc' := Nat.digitChar (n % base) :: acc
    if n / base = 0 then acc' else pyDigitsAux base fuel (n / base) acc'

/-- Python's minimal base-`base` rendering of a non-negative int (no sign, no
leading zeros, `"0"` for zero; lowercase letters for values 10-15).  The fuel
`64` is exact for every `n < base ^ 64`; larger values fall back to fuel
`n + 1`, which always suffices, so the function is exact for every `n`. -/
def pyDigits (base : Nat) (n : Nat) : List Char :=
  pyDigitsAux base (if n < base ^ 64 then 64 else n + 1) n []

/-- Python `str(n)` for a non-negative int. -/
def pyStr (n : Nat) : List Char := pyDigits 10 n

/-- Python `f"{n:x}"` for a non-negative int. -/
def pyHex (n : Nat) : List Char := pyDigits 16 n

/-- Swap the two members of every adjacent pair, as the nibble-swapping line
of telecom BCD packing does; a trailing unpaired element stays in place. -/
def swapPairs : List Char → List Char
  | a :: b :: rest => b :: a :: swapPairs rest
  | l => l

/-- Modelled from the spec: `encode_bcd` (pycrate `TS24008_IE`), i.e. §4.1's
"standard telecom BCD packing (two digits per byte)" followed by `bytes.hex()`.
An odd-count digit string is padded with the filler nibble `0xF`, the two
nibbles of every byte are swapped (low nibble holds the earlier digit), and
rendering the resulting bytes as a hex string lowercases every nibble.
`binascii.unhexlify` fails on any character that is not a hex digit, which is
modelled by returning `none`. -/
def encode_bcd_hex (dig : List Char) : Option (List Char) :=
  if dig.all isHex then
    some ((swapPairs (if dig.length % 2 = 1 then dig ++ ['f'] else dig)).map
      (fun c => Nat.digitChar (hexValD c)))
  else none

/-- The decimal string `str(idtype + 8 * (len(ident) % 2))` built by
`identity_octets` for the type-and-parity field.  Note that `str`, not hex
formatting, is used by the source: for `idtype = 3` and odd length the value
is 11 and this string has two characters. -/
def type_and_parity (idtype : Nat) (identLen : Nat) : List Char :=
  pyStr (idtype + 8 * (identLen % 2))

/-- The hex-character string `ident[0] + type_and_parity + encode_bcd(ident[1:]).hex()`
that `identity_octets` hands to `int(·, 16)`.  `none` models the exceptions the
source can raise there: `IndexError` on an empty `ident`, and `ValueError` /
`binascii.Error` when a character is not a hex digit. -/
def identity_octets_chars (idtype : Nat) (ident : List Char) : Option (List Char) :=
  match ident with
  | [] => none
  | d0 :: rest =>
    match encode_bcd_hex rest with
    | none => none
    | some bcd =>
      let s := d0 :: type_and_parity idtype (rest.length + 1) ++ bcd
      if s.all isHex then some s else none

/-- Numeric value of a hex-character string, as `int(s, 16)` (validity of the
characters is checked by the caller). -/
def hexCharsToNat (s : List Char) : Nat := s.foldl (fun acc c => 16 * acc + hexValD c) 0

/-- `identity_octets(idtype, ident)` of tools/redact.py: the identity's wire
nibble string parsed as an integer.  Leading zero nibbles are not recoverable
from the returned value. -/
def identity_octets (idtype : Nat) (ident : List Char) : Option Nat :=
  (identity_octets_chars idtype ident).map hexCharsToNat

/-- The nibble values (most significant first) of the string `identity_octets`
builds, before the conversion to `int` discards leading zeros. -/
def identity_nibbles (idtype : Nat) (ident : List Char) : Option (List Nat) :=
  (identity_octets_chars idtype ident).map (List.map hexValD)

/-- Re-derivation of the digits from an encoded nibble-value sequence, as the
specification describes it (§8 round-trip property): nibble 0 is digit 0, the
high bit of the type-and-parity nibble gives the length parity, the remaining
nibbles are unpacked as BCD pairs and, for an even total digit count, the
trailing filler nibble is dropped. -/
def rederiveDigits (nibs : List Nat) : Option (List Nat) :=
  match nibs with
  | d0 :: tp :: rest =>
    let u := swapPairsNat rest
    some (d0 :: (if 8 ≤ tp then u else u.dropLast))
  | _ => none
where
  swapPairsNat : List Nat → List Nat
    | a :: b :: rest => b :: a :: swapPairsNat rest
    | l => l

/-! ## Bit-shift pattern synthesis (`yara_rules` in tools/redact.py)

A pattern is the character list of a YARA hex-string token: hex digits for
literal nibbles and `?` for wildcard nibbles.  The source builds them by
slicing the minimal hex rendering of the shifted integer:
`shift1 = "??" + s[2:-1] + "?"` (same for shift 2) and
`shift3 = "0" + s[0] + "??" + s[3:-1] + "?"`. -/

/-- The mask applied by the source to the shift-1 and shift-2 hex strings:
`"??" + s[2:-1] + "?"`. -/
def wildmask12 (s : List Char) : List Char :=
  '?' :: '?' :: ((s.drop 2).dropLast ++ ['?'])

/-- The mask applied by the source to the shift-3 hex string:
`"0" + s[0] + "??" + s[3:-1] + "?"`. -/
def wildmask3 (s : List Char) : List Char :=
  '0' :: s.headD '0' :: '?' :: '?' :: ((s.drop 3).dropLast ++ ['?'])

/-- The `$shift1` pattern token of an encoded identity value. -/
def yaraShift1 (v : Nat) : List Char := wildmask12 (pyHex (v <<< 1))

/-- The `$shift2` pattern token of an encoded identity value. -/
def yaraShift2 (v : Nat) : List Char := wildmask12 (pyHex (v <<< 2))

/-- The `$shift3` pattern token of an encoded identity value. -/
def yaraShift3 (v : Nat) : List Char := wildmask3 (pyHex (v <<< 3))

/-- The pattern shape stated by the claim for the shifted alignments: the
nibble sequence of the shifted value with exactly the two leading nibbles and
the single trailing nibble replaced by wildcards, every interior nibble kept
literal. -/
def claimMask (s : List Char) : List Char :=
  (List.range s.length).map fun i =>
    if i < 2 ∨ i = s.length - 1 then '?' else s.getD i '?'

/-- The shape the source actually gives the shift-3 pattern, stated by
position: a literal `0`, then the first nibble of the shifted value kept
literal, then two wildcards, then the interior nibbles shifted one place to
the right, then a trailing wildcard (one nibble longer than the hex string). -/
def claimMask3 (s : List Char) : List Char :=
  (List.range (s.length + 1)).map fun i =>
    if i = 0 then '0'
    else if i = 1 then s.getD 0 '?'
    else if i < 4 ∨ i = s.length then '?'
    else s.getD (i - 1) '?'

/-- A synthesized rule, as structured data: the identifier after the `rule`
keyword of the generated text (`mobile_id_type{typ}`) and the four
`$`-pattern declarations with their hex-string tokens. -/
structure YaraRule where
  name : List Char
  pats : List (List Char × List Char)
  deriving DecidableEq

/-- `yara_rules(typ, ident)` of tools/redact.py, as structured data.  The rule
name depends only on `typ`; the four patterns are the minimal hex rendering of
the encoded value and its three masked shifts.  `none` models the uncaught
exception when `identity_octets` raises. -/
def yara_rules (typ : Nat) (ident : List Char) : Option YaraRule :=
  (identity_octets typ ident).map fun v =>
    { name := "mobile_id_type".toList ++ pyStr typ
      pats := [("$ident".toList ++ pyStr typ, pyHex v),
               ("$shift1".toList, yaraShift1 v),
               ("$shift2".toList, yaraShift2 v),
               ("$shift3".toList, yaraShift3 v)] }

/-! ## Masked multi-pattern scanner

Modelled from the spec (§4.3): the repository delegates scanning to the
external `yara_x` engine, which is not part of this repository.  Matching is
nibble-granular: each byte of a compiled pattern is a pair of nibble positions,
each either a literal value 0-15 or a wildcard; a pattern matches at a byte
offset iff every non-wildcard nibble equals the corresponding haystack nibble.
Compilation of a hex-string token fails on a character that is neither a hex
digit nor `?`, and on an odd number of nibbles (YARA hex strings are byte
sequences); compiling a rule set fails on duplicate rule identifiers. -/

/-- One byte of a compiled pattern: high and low nibble, `none` = wildcard. -/
structure PatByte where
  hi : Option Nat
  lo : Option Nat
  deriving DecidableEq

/-- One nibble of a hex-string token: `?` is a wildcard, a hex digit is a
literal; any other character is a compile error. -/
def parseNib (c : Char) : Option (Option Nat) :=
  if c = '?' then some none else (hexVal? c).map some

/-- Parse a hex-string token into pattern bytes; fails on an odd number of
nibbles or an invalid character. -/
def parseHexToken : List Char → Option (List PatByte)
  | [] => some []
  | [_] => none
  | c1 :: c2 :: rest =>
    match parseNib c1, parseNib c2, parseHexToken rest with
    | some n1, some n2, some tl => some (⟨n1, n2⟩ :: tl)
    | _, _, _ => none

/-- A compiled pattern: its `$` identifier and its byte-level mask. -/
structure CompiledPattern where
  pid : List Char
  bytes : List PatByte
  deriving DecidableEq

/-- A compiled rule: its identifier and its compiled patterns. -/
structure CompiledRule where
  name : List Char
  pats : List CompiledPattern
  deriving DecidableEq

/-- Compile one rule: parse every pattern token. -/
def compileRule (r : YaraRule) : Option CompiledRule :=
  (r.pats.mapM fun pt => (parseHexToken pt.2).map (CompiledPattern.mk pt.1)).map
    (CompiledRule.mk r.name)

/-- Compile a rule set: rule identifiers must be distinct (YARA rejects a
duplicate rule identifier), and every pattern token must parse. -/
def compileRules (rs : List YaraRule) : Option (List CompiledRule) :=
  if (rs.map YaraRule.name).Nodup then rs.mapM compileRule else none

/-- A wildcard nibble matches anything; a literal nibble matches exactly. -/
def nibMatch (p : Option Nat) (n : Nat) : Bool :=
  match p with
  | none => true
  | some v => v = n

/-- A pattern byte against a haystack byte, nibble-granular. -/
def byteMatch (p : PatByte) (b : Nat) : Bool :=
  nibMatch p.hi (b / 16) && nibMatch p.lo (b % 16)

/-- The pattern matches the haystack at byte offset `o`. -/
def patMatchAt (p : List PatByte) (hay : List Nat) (o : Nat) : Bool :=
  decide (o + p.length ≤ hay.length) &&
    (p.zip (hay.drop o)).all fun pb => byteMatch pb.1 pb.2

/-- One reported match: byte offset and byte length. -/
structure PatMatch where
  offset : Nat
  length : Nat
  deriving DecidableEq

/-- Every offset at which the pattern matches, ascending. -/
def patOffsets (p : List PatByte) (hay : List Nat) : List PatMatch :=
  (List.range (hay.length + 1)).filterMap fun o =>
    if patMatchAt p hay o then some ⟨o, p.length⟩ else none

/-- Scan outcome for one rule: its name and, per pattern identifier, the
matches of that pattern. -/
structure ScanRuleResult where
  name : List Char
  pats : List (List Char × List PatMatch)
  deriving DecidableEq

/-- Scan one rule over the haystack. -/
def scanRule (r : CompiledRule) (hay : List Nat) : ScanRuleResult :=
  ⟨r.name, r.pats.map fun p => (p.pid, patOffsets p.bytes hay)⟩

/-- `results.matching_rules`: the rules whose condition (the `or` of their
patterns) holds, i.e. at least one pattern matched, in rule-set order. -/
def matchingRules (crs : List CompiledRule) (hay : List Nat) : List ScanRuleResult :=
  (crs.map (scanRule · hay)).filter fun sr => sr.pats.any fun p => !p.2.isEmpty

/-- An entry of the list returned by `matches_from`: the match object together
with the pattern identifier it was printed with. -/
structure MatchEntry where
  offset : Nat
  length : Nat
  pid : List Char
  deriving DecidableEq

/-- The nested iteration of `matches_from`: every match of every pattern of
every matching rule, in scanner iteration order. -/
def flattenResults (rs : List ScanRuleResult) : List MatchEntry :=
  rs.flatMap fun sr => sr.pats.flatMap fun p => p.2.map fun m => ⟨m.offset, m.length, p.1⟩

instance : DecidableRel (fun a b : MatchEntry => a.offset ≤ b.offset) :=
  fun a b => Nat.decLe a.offset b.offset

/-- `matches_from(results)` of tools/redact.py: flatten the scan results and
sort them with `sorted(matches, key=lambda m: m.offset)`.  Python's `sorted`
is a stable sort on the key, which coincides extensionally with the stable
insertion sort `List.insertionSort` on the non-strict key order. -/
def matches_from (rs : List ScanRuleResult) : List MatchEntry :=
  List.insertionSort (fun a b => a.offset ≤ b.offset) (flattenResults rs)

/-- Lexicographic order on pattern identifiers (by character code), used to
state the claim about ties being broken by pattern id. -/
def lexLe : List Char → List Char → Bool
  | [], _ => true
  | _ :: _, [] => false
  | a :: as_, b :: bs => if a.toNat < b.toNat then true
      else if b.toNat < a.toNat then false else lexLe as_ bs

/-- The entry is a genuine match of the compiled rule set on the haystack:
some rule has a pattern with this identifier whose mask matches at this
offset, with the pattern's byte length. -/
def isMatchOf (crs : List CompiledRule) (hay : List Nat) (e : MatchEntry) : Prop :=
  ∃ r, r ∈ crs ∧ ∃ p, p ∈ r.pats ∧ p.pid = e.pid ∧ e.length = p.bytes.length ∧
    patMatchAt p.bytes hay e.offset = true

/-- `overwrite_file`: for each match in order, seek to its offset and write
`length` copies of the filler byte.  (In-run matches are in bounds, so the
file length is unchanged.) -/
def overwriteBytes (bytes : List Nat) (ms : List MatchEntry) (filler : Nat) : List Nat :=
  ms.foldl (fun bs m =>
    bs.take m.offset ++ List.replicate m.length filler ++ bs.drop (m.offset + m.length)) bytes

/-! ## Identity disclosure detection (tools/extract.py)

The NAS messages reaching `heur_ue_id_sent` are decoded objects produced by
the external pycrate decoder.  A message is modelled by its variant and by the
outcome of the element accesses the source performs on it: `none` models a
`pycrate_core.elt.EltErr` raised by the access or by `.decode()`, and
`some (t, i)` models a successful decode into an identity type and digit
string.  The inner payload of a security-protected message is modelled by the
attach-request fields it exposes, if the `msg["EMMAttachRequest"]` lookup
succeeds. -/

/-- A decoded NAS message, restricted to what `heur_ue_id_sent` inspects. -/
inductive NasMsg where
  | attachRequest (attachType : Nat) (epsid : Option (Nat × List Char))
  | secProt (innerAttach : Option (Nat × Option (Nat × List Char)))
  | securityModeComplete (imeisv : Option (Nat × List Char))
  | other
  deriving DecidableEq

/-- `EPS_IMSI_ATTACH = 2`: the combined EPS/IMSI attach-type code. -/
def EPS_IMSI_ATTACH : Nat := 2

/-- `str(0xA)`, the string the source compares a decoded digit string against
to recognize an identity slot that was already redacted. -/
def sentinelStr : List Char := ['1', '0']

/-- The attach-request branch of `heur_ue_id_sent`: require the attach type
to be the combined code, decode the EPS identity element, and drop the
already-redacted sentinel. -/
def attachCase (attachType : Nat) (epsid : Option (Nat × List Char)) :
    Option (Nat × List Char) :=
  if attachType = EPS_IMSI_ATTACH then
    match epsid with
    | none => none
    | some (t, i) => if i = sentinelStr then none else some (t, i)
  else none

/-- `heur_ue_id_sent(msg)` of tools/extract.py.  `some (t, i)` is the
`(True, (t, i))` outcome; `none` covers every `(False, _)` outcome (including
the previously-redacted notice, which the caller does not add to
the identity list). -/
def heur_ue_id_sent : NasMsg → Option (Nat × List Char)
  | .attachRequest atyp eps => attachCase atyp eps
  | .secProt none => none
  | .secProt (some (atyp, eps)) => attachCase atyp eps
  | .securityModeComplete none => none
  | .securityModeComplete (some (t, i)) => if i = sentinelStr then none else some (t, i)
  | .other => none

/-- Outcome of `parse_nas_message` on one packet: a decoded message, or the
`TypeError` that the extraction loop catches and skips. -/
inductive PacketParse where
  | ok (msg : NasMsg)
  | parseError
  deriving DecidableEq

/-- `main(packets)` of tools/extract.py: run the heuristic over every
decodable packet and collect the triggered identities in order. -/
def extract_main : List PacketParse → List (Nat × List Char)
  | [] => []
  | .parseError :: rest => extract_main rest
  | .ok m :: rest =>
    match heur_ue_id_sent m with
    | some ti => ti :: extract_main rest
    | none => extract_main rest

/-! ## Redaction orchestrator (`main` of tools/redact.py)

A run takes a list of haystack files.  For each file, `rdpcap` + extraction
can succeed (a packet list), raise `Scapy_Exception` (caught: the file is
skipped for extraction but still scanned later), or raise an unreadability
error such as `FileNotFoundError` (not caught: the run aborts).  The file's
byte content at scan time is `none` when opening it for scanning raises
(`scan_file` errors are not caught either).  Crashes are modelled with
`Except`: `.error` means an uncaught exception ended the run before the
remaining files were processed. -/

/-- Outcome of `rdpcap(h)` + packet iteration for one input file. -/
inductive ExtractOutcome where
  | ok (packets : List PacketParse)
  | scapyError
  | readError
  deriving DecidableEq

/-- One input file of a run. -/
structure HFile where
  extract : ExtractOutcome
  content : Option (List Nat)
  deriving DecidableEq

/-- An uncaught exception that aborts a run. -/
inductive Crash where
  | readCrash
  | encodeCrash
  | compileCrash
  | scanCrash
  deriving DecidableEq

/-- Per-file outcome of the scan / overwrite / re-scan loop. -/
inductive FileReport where
  | noMatches
  | verified
  | failed
  deriving DecidableEq

instance {ε α : Type} [DecidableEq ε] [DecidableEq α] : DecidableEq (Except ε α)
  | .error e, .error f =>
    if h : e = f then .isTrue (by rw [h]) else .isFalse (by simp [h])
  | .error _, .ok _ => .isFalse (by simp)
  | .ok _, .error _ => .isFalse (by simp)
  | .ok a, .ok b =>
    if h : a = b then .isTrue (by rw [h]) else .isFalse (by simp [h])

/-- `idents.add(i)`: the identity set, modelled as a duplicate-free list in
insertion order (Python iterates a `set` in an unspecified order; nothing
proved below depends on the order). -/
def addIdent (acc : List (Nat × List Char)) (i : Nat × List Char) :
    List (Nat × List Char) :=
  if i ∈ acc then acc else acc ++ [i]

/-- The identity-collection loop of `main`: per file, catch `Scapy_Exception`
and continue; an unreadable file raises out of the loop. -/
def phase1Aux (acc : List (Nat × List Char)) :
    List HFile → Except Crash (List (Nat × List Char))
  | [] => .ok acc
  | f :: fs =>
    match f.extract with
    | .readError => .error .readCrash
    | .scapyError => phase1Aux acc fs
    | .ok pkts => phase1Aux ((extract_main pkts).foldl addIdent acc) fs

/-- Build one rule per collected identity (the `"\n".join(yara_rules(*i) ...)`
needle); `none` models the uncaught exception when encoding an identity
raises. -/
def buildRules : List (Nat × List Char) → Option (List YaraRule)
  | [] => some []
  | ti :: rest =>
    match yara_rules ti.1 ti.2 with
    | none => none
    | some r => (buildRules rest).map (r :: ·)

/-- The per-file body of the second loop of `main`: scan (compiling the
needle, as each `scan` call does), report `NoMatches`, or overwrite every
match with the filler byte `0xAA` and re-scan; a remaining matching rule is a
verification failure.  Opening an unreadable file, or compiling an invalid
needle, raises out of the run. -/
def processFile (rules : List YaraRule) (f : HFile) : Except Crash FileReport :=
  match f.content with
  | none => .error .scanCrash
  | some bytes =>
    match compileRules rules with
    | none => .error .compileCrash
    | some crs =>
      let before := matches_from (matchingRules crs bytes)
      if before = [] then .ok .noMatches
      else
        let bytes2 := overwriteBytes bytes before 0xAA
        if matchingRules crs bytes2 = [] then .ok .verified else .ok .failed

/-- The second loop of `main` over all files; a crash on one file aborts the
loop (no exception handling around it in the source). -/
def phase2 (rules : List YaraRule) : List HFile → Except Crash (List FileReport)
  | [] => .ok []
  | f :: fs =>
    match processFile rules f with
    | .error c => .error c
    | .ok r =>
      match phase2 rules fs with
      | .error c => .error c
      | .ok rs => .ok (r :: rs)

/-- `main(haystacks)` of tools/redact.py: collect identities, build the
needle, process every file, and exit with status 2 if any file failed
verification, 0 otherwise. -/
def redact_main (files : List HFile) : Except Crash (Nat × List FileReport) :=
  match phase1Aux [] files with
  | .error c => .error c
  | .ok ids =>
    match buildRules ids with
    | none => .error .encodeCrash
    | some rules =>
      match phase2 rules files with
      | .error c => .error c
      | .ok reps => .ok (if reps.any (· = .failed) then 2 else 0, reps)

/-! ## Claim-specific definitions -/

/-- Shape of the synthesized patterns (claim C5, amended), as a total case
split on the length of the shifted hex string.  One rule always holds 4
patterns.  When the shift-1/shift-2 hex string has at least 3 nibbles the
token is the claim's mask (two leading wildcards, one trailing wildcard,
literal interior); a shorter hex string degenerates to the three wildcards
`???`, losing every literal nibble.  When the shift-3 hex string has at
least 4 nibbles the token is `claimMask3` of it (literal `0`, literal
leading nibble, wildcards at positions 2-3 and at the end, one nibble longer
than the hex string); a shorter one degenerates to the five nibbles
`0 s0 ? ? ?`, whose length exceeds the hex string's by two or more. -/
def C5Prop (v : Nat) : Prop :=
  (∀ t i r, yara_rules t i = some r → r.pats.length = 4)
  ∧ yaraShift1 v = (if 3 ≤ (pyHex (v <<< 1)).length then claimMask (pyHex (v <<< 1))
      else ['?', '?', '?'])
  ∧ yaraShift2 v = (if 3 ≤ (pyHex (v <<< 2)).length then claimMask (pyHex (v <<< 2))
      else ['?', '?', '?'])
  ∧ yaraShift3 v = (if 4 ≤ (pyHex (v <<< 3)).length then claimMask3 (pyHex (v <<< 3))
      else '0' :: (pyHex (v <<< 3)).headD '0' :: ['?', '?', '?'])

/-- Properties of the encoder's nibble sequence (claim C6, amended): defined,
nibble 0 is the first digit, nibble 1 is the kind code plus 8 times the length
parity, the sequence has `len + 2 - len % 2` nibbles (the BCD filler adds one
when `len` is even), and the returned integer is below 2 to the 4 times that
count. -/
def C6Prop (kind : Nat) (digits : List Char) : Prop :=
  (identity_nibbles kind digits).isSome = true
  ∧ ((identity_nibbles kind digits).getD []).getD 0 99 = hexValD (digits.headD '?')
  ∧ ((identity_nibbles kind digits).getD []).getD 1 99 = kind + 8 * (digits.length % 2)
  ∧ ((identity_nibbles kind digits).getD []).length = digits.length + 2 - digits.length % 2
  ∧ (identity_octets kind digits).getD 0 < 2 ^ (4 * (digits.length + 2 - digits.length % 2))

/-- The IMSI digit string of the specification's end-to-end scenario (§8). -/
def imsiDigits : List Char := "001010123456789".toList

/-- The correct byte-aligned wire encoding of that identity (digit 0, then
type-and-parity nibble 9, then the swapped BCD pairs). -/
def imsiWireBytes : List Nat := [0x09, 0x10, 0x10, 0x10, 0x32, 0x54, 0x76, 0x98]

/-- The 64-byte scenario file: the encoded identity embedded byte-aligned at
offset 5, fixed arbitrary bytes elsewhere. -/
def c1File : List Nat := List.replicate 5 0x11 ++ imsiWireBytes ++ List.replicate 51 0x22

/-- The scenario input: the file discloses the identity in one decodable
combined (type 2) attach request, and its content is readable. -/
def c1Input : HFile :=
  ⟨.ok [.ok (.attachRequest 2 (some (1, imsiDigits)))], some c1File⟩

/-- A compiled rule set for the tie-break counterexample: the shift pattern of
a first rule and the ident pattern of a second rule both match byte `0xAA`. -/
def c7Rules : List CompiledRule :=
  [⟨"mobile_id_type1".toList, [⟨"$shift1".toList, [⟨some 10, some 10⟩]⟩]⟩,
   ⟨"mobile_id_type3".toList, [⟨"$ident3".toList, [⟨some 10, some 10⟩]⟩]⟩]

/-! ## Basic lemmas about the character-level encoders -/

theorem hexValD_lt (c : Char) : hexValD c < 16 := by
  unfold hexValD hexVal?
  split_ifs <;> simp <;> omega

theorem digitChar_isHex : ∀ m, m < 16 → isHex (Nat.digitChar m) = true := by decide

theorem hexValD_digitChar : ∀ m, m < 16 → hexValD (Nat.digitChar m) = m := by decide

theorem isDecimal_isHex (c : Char) (h : isDecimal c = true) : isHex c = true := by
  simp only [isDecimal, decide_eq_true_eq] at h
  simp only [isHex, hexVal?, if_pos h, Option.isSome_some]

theorem pyDigitsAux10_mem_isHex :
    ∀ (fuel n : Nat) (acc : List Char), (∀ c ∈ acc, isHex c = true) →
      ∀ c ∈ pyDigitsAux 10 fuel n acc, isHex c = true := by
  intro fuel
  induction fuel with
  | zero => intro n acc h; simpa [pyDigitsAux] using h
  | succ f ih =>
    intro n acc h c hc
    have hd : isHex (Nat.digitChar (n % 10)) = true :=
      digitChar_isHex _ (Nat.lt_of_lt_of_le (Nat.mod_lt _ (by omega)) (by omega))
    simp only [pyDigitsAux] at hc
    split at hc
    · rcases List.mem_cons.mp hc with h1 | h1
      · exact h1 ▸ hd
      · exact h c h1
    · refine ih _ _ ?_ c hc
      intro c' hc'
      rcases List.mem_cons.mp hc' with h1 | h1
      · exact h1 ▸ hd
      · exact h c' h1

theorem pyStr_all_isHex (n : Nat) : (pyStr n).all isHex = true := by
  rw [List.all_eq_true]
  intro c hc
  exact pyDigitsAux10_mem_isHex _ n [] (by simp) c hc

theorem pyStr_single : ∀ m, m < 10 → pyStr m = [Nat.digitChar m] := by decide

theorem swapPairs_length : ∀ l : List Char, (swapPairs l).length = l.length
  | [] => rfl
  | [_] => rfl
  | a :: b :: rest => by
    simp only [swapPairs, List.length_cons]
    rw [swapPairs_length rest]

theorem hexCharsToNat_foldl_lt :
    ∀ (s : List Char) (acc : Nat),
      s.foldl (fun a c => 16 * a + hexValD c) acc < (acc + 1) * 16 ^ s.length := by
  intro s
  induction s with
  | nil => intro acc; simp
  | cons c s ih =>
    intro acc
    calc List.foldl (fun a c => 16 * a + hexValD c) acc (c :: s)
        = List.foldl (fun a c => 16 * a + hexValD c) (16 * acc + hexValD c) s := rfl
      _ < (16 * acc + hexValD c + 1) * 16 ^ s.length := ih _
      _ ≤ ((acc + 1) * 16) * 16 ^ s.length := by
          exact Nat.mul_le_mul (by have := hexValD_lt c; omega) (Nat.le_refl _)
      _ = (acc + 1) * 16 ^ (s.length + 1) := by rw [pow_succ]; ring
      _ = (acc + 1) * 16 ^ (c :: s).length := by rw [List.length_cons]

theorem hexCharsToNat_lt (s : List Char) : hexCharsToNat s < 16 ^ s.length := by
  simpa [hexCharsToNat] using hexCharsToNat_foldl_lt s 0

/-- Evaluation of `identity_octets_chars` on a non-empty, all-hex digit string
whose type-and-parity value fits in one decimal character. -/
theorem identity_octets_chars_eq (kind : Nat) (d0 : Char) (rest : List Char)
    (h0 : isHex d0 = true) (hr : rest.all isHex = true)
    (htp : kind + 8 * ((rest.length + 1) % 2) < 10) :
    identity_octets_chars kind (d0 :: rest) =
      some (d0 :: Nat.digitChar (kind + 8 * ((rest.length + 1) % 2)) ::
        (swapPairs (if rest.length % 2 = 1 then rest ++ ['f'] else rest)).map
          (fun c => Nat.digitChar (hexValD c))) := by
  have hbcd : encode_bcd_hex rest =
      some ((swapPairs (if rest.length % 2 = 1 then rest ++ ['f'] else rest)).map
        (fun c => Nat.digitChar (hexValD c))) := by
    simp [encode_bcd_hex, hr]
  have htps : type_and_parity kind (rest.length + 1) =
      [Nat.digitChar (kind + 8 * ((rest.length + 1) % 2))] := by
    unfold type_and_parity
    exact pyStr_single _ htp
  have hall : ((d0 :: [Nat.digitChar (kind + 8 * ((rest.length + 1) % 2))] ++
      (swapPairs (if rest.length % 2 = 1 then rest ++ ['f'] else rest)).map
        (fun c => Nat.digitChar (hexValD c))).all isHex) = true := by
    rw [List.all_eq_true]
    intro c hc
    rcases List.mem_cons.mp hc with rfl | hc
    · exact h0
    rcases List.mem_append.mp hc with hc | hc
    · rcases List.mem_singleton.mp hc with rfl
      exact digitChar_isHex _ (by omega)
    · rcases List.mem_map.mp hc with ⟨a, _, rfl⟩
      exact digitChar_isHex _ (hexValD_lt a)
  simp only [identity_octets_chars, hbcd, htps]
  rw [if_pos]
  · rfl
  · exact hall

/-- Evaluation of `identity_nibbles` under the same hypotheses, at the level
of nibble values. -/
theorem identity_nibbles_eq (kind : Nat) (d0 : Char) (rest : List Char)
    (h0 : isHex d0 = true) (hr : rest.all isHex = true)
    (htp : kind + 8 * ((rest.length + 1) % 2) < 10) :
    identity_nibbles kind (d0 :: rest) =
      some (hexValD d0 :: (kind + 8 * ((rest.length + 1) % 2)) ::
        (swapPairs (if rest.length % 2 = 1 then rest ++ ['f'] else rest)).map hexValD) := by
  rw [identity_nibbles, identity_octets_chars_eq kind d0 rest h0 hr htp]
  simp only [Option.map_some', List.map_cons, List.map_map]
  rw [hexValD_digitChar _ (by omega)]
  have hmap : ∀ a ∈ swapPairs (if rest.length % 2 = 1 then rest ++ ['f'] else rest),
      (hexValD ∘ fun c => Nat.digitChar (hexValD c)) a = hexValD a := fun a _ =>
    hexValD_digitChar _ (hexValD_lt a)
  rw [List.map_congr_left hmap]

/-- The nibble-value sequence of a successfully encoded identity, with its
tail abstracted: head nibble, type-and-parity nibble, and a BCD tail whose
nibble count is the digit count after the first rounded up to a pair. -/
theorem identity_nibbles_spec (kind : Nat) (d0 : Char) (rest : List Char)
    (h0 : isHex d0 = true) (hr : rest.all isHex = true)
    (htp : kind + 8 * ((rest.length + 1) % 2) < 10) :
    ∃ tl, identity_nibbles kind (d0 :: rest) =
        some (hexValD d0 :: (kind + 8 * ((rest.length + 1) % 2)) :: tl)
      ∧ tl.length = rest.length + rest.length % 2 := by
  refine ⟨_, identity_nibbles_eq kind d0 rest h0 hr htp, ?_⟩
  rw [List.length_map, swapPairs_length]
  rcases Nat.mod_two_eq_zero_or_one rest.length with hp | hp
  · rw [if_neg (by omega)]
    omega
  · rw [if_pos hp]
    simp [hp]

/-- The integer returned for a successfully encoded identity is bounded by
the bit width of its nibble string. -/
theorem identity_octets_lt (kind : Nat) (d0 : Char) (rest : List Char)
    (h0 : isHex d0 = true) (hr : rest.all isHex = true)
    (htp : kind + 8 * ((rest.length + 1) % 2) < 10) :
    (identity_octets kind (d0 :: rest)).getD 0 <
      2 ^ (4 * (rest.length + 2 + rest.length % 2)) := by
  rw [identity_octets, identity_octets_chars_eq kind d0 rest h0 hr htp]
  simp only [Option.map_some', Option.getD_some]
  have hlt := hexCharsToNat_lt (d0 :: Nat.digitChar (kind + 8 * ((rest.length + 1) % 2)) ::
    (swapPairs (if rest.length % 2 = 1 then rest ++ ['f'] else rest)).map
      (fun c => Nat.digitChar (hexValD c)))
  rw [show (16 : Nat) = 2 ^ 4 from rfl, ← Nat.pow_mul] at hlt
  have hlen : (d0 :: Nat.digitChar (kind + 8 * ((rest.length + 1) % 2)) ::
      (swapPairs (if rest.length % 2 = 1 then rest ++ ['f'] else rest)).map
        (fun c => Nat.digitChar (hexValD c))).length = rest.length + 2 + rest.length % 2 := by
    simp only [List.length_cons, List.length_map, swapPairs_length]
    rcases Nat.mod_two_eq_zero_or_one rest.length with hp | hp
    · rw [if_neg (by omega)]
      omega
    · rw [if_pos hp]
      simp only [List.length_append, List.length_singleton]
      omega
  rwa [hlen] at hlt

/-! ## Claim C9: failure conditions of the encoder -/

/-- C6 (amended): for kind 1 with any decimal digit string of length 1-15,
and kind 3 with an even length, the nibble sequence starts with the first
digit and then the type-and-parity nibble `kind + 8 * (len % 2)`, has
`len + 2 - len % 2` nibbles (one more than the claim's `2 + len - 1` when
`len` is even, because of the BCD filler), and the returned integer is below
2 to the 4 times that count.  (For kind 3 with odd length the type-and-parity
field is emitted as the two characters of `str(11)`; see claim C2.) -/
theorem c6_encoder_nibbles (kind : Nat) (digits : List Char) (hne : digits ≠ [])
    (hdec : digits.all isDecimal = true) (hlen : digits.length ≤ 15)
    (hk : kind = 1 ∨ (kind = 3 ∧ digits.length % 2 = 0)) : C6Prop kind digits := by
  obtain ⟨d0, rest, rfl⟩ : ∃ d0 rest, digits = d0 :: rest := by
    cases digits with
    | nil => exact absurd rfl hne
    | cons a l => exact ⟨a, l, rfl⟩
  rw [List.all_cons, Bool.and_eq_true] at hdec
  obtain ⟨hd0, hrest⟩ := hdec
  have h0 : isHex d0 = true := isDecimal_isHex _ hd0
  have hr : rest.all isHex = true := by
    rw [List.all_eq_true] at hrest ⊢
    exact fun c hc => isDecimal_isHex c (hrest c hc)
  have htp : kind + 8 * ((rest.length + 1) % 2) < 10 := by
    rcases hk with rfl | ⟨rfl, hpar⟩
    · omega
    · simp only [List.length_cons] at hpar
      omega
  obtain ⟨tl, hnib, htl⟩ := identity_nibbles_spec kind d0 rest h0 hr htp
  refine ⟨?_, ?_, ?_, ?_, ?_⟩
  · rw [hnib]
    rfl
  · rw [hnib]
    simp
  · rw [hnib]
    simp only [Option.getD_some, List.getD_cons_succ, List.getD_cons_zero, List.length_cons]
  · rw [hnib]
    simp only [Option.getD_some, List.length_cons]
    omega
  · have := identity_octets_lt kind d0 rest h0 hr htp
    have hexp : rest.length + 2 + rest.length % 2 =
        (d0 :: rest).length + 2 - (d0 :: rest).length % 2 := by
      simp only [List.length_cons]
      omega
    rwa [hexp] at this

/-- C6 counterexample: for kind 1 and the two-digit string `12` the encoded
nibble sequence is `1 1 f 2` (four nibbles, the last being the BCD filler),
not the `2 + 2 - 1 = 3` nibbles the claim states, and the returned integer
`0x11f2` does not fit in the claimed `4 * (2 + 2 - 1) = 12` bits. -/
theorem c6_width_counterexample :
    identity_nibbles 1 ['1', '2'] = some [1, 1, 15, 2]
    ∧ ((identity_nibbles 1 ['1', '2']).getD []).length ≠ 2 + ['1', '2'].length - 1
    ∧ ¬ ((identity_octets 1 ['1', '2']).getD 0 < 2 ^ (4 * (2 + ['1', '2'].length - 1))) := by
  decide

/-- C6 witness: the amended statement instantiated at kind 1, digits `123`. -/
theorem c6_encoder_nibbles_witness :
    ((['1', '2', '3'] : List Char) ≠ [] ∧ (['1', '2', '3'] : List Char).all isDecimal = true
      ∧ (['1', '2', '3'] : List Char).length ≤ 15)
    ∧ C6Prop 1 ['1', '2', '3'] :=
  ⟨⟨by decide, by decide, by decide⟩,
    c6_encoder_nibbles 1 ['1', '2', '3'] (by decide) (by decide) (by decide) (Or.inl rfl)⟩

/-! ## Claim C2: round-trip of encode and nibble-level re-derivation -/

/-- C2 fails on the code for kind 3 with an odd digit count: `str(3 + 8)` is
the two characters `11`, so the encoder emits the five nibbles `5 1 1 7 6`
for the digits `567` instead of the four nibbles `5 B 7 6` of the mobile
identity encoding, and the re-derivation procedure of the claim does not
recover the digits (it yields `5 7 1`).  On the intended nibble sequence
`5 11 7 6` the same re-derivation does recover `5 6 7`, isolating the
`str`-instead-of-hex slip as the cause. -/
theorem c2_roundtrip_fails_kind3_odd :
    identity_nibbles 3 ['5', '6', '7'] = some [5, 1, 1, 7, 6]
    ∧ rederiveDigits [5, 1, 1, 7, 6] ≠ some [5, 6, 7]
    ∧ rederiveDigits [5, 11, 7, 6] = some [5, 6, 7] := by decide

/-! ## Claim C3: detector behaviour on attach requests -/

/-- C3 (amended): for a decoded attach request the detector returns an
identity exactly when the attach-type field is the combined code 2, the
identity element decodes, and the decoded digit string is not the
already-redacted sentinel; the returned pair is exactly what the element
decoded to (its kind is not forced to the permanent-subscriber code). -/
theorem c3_detector_attach_characterization :
    ∀ (atyp : Nat) (eps : Option (Nat × List Char)) (ti : Nat × List Char),
      heur_ue_id_sent (.attachRequest atyp eps) = some ti ↔
        (atyp = 2 ∧ eps = some ti ∧ ti.2 ≠ sentinelStr) := by
  intro atyp eps ti
  simp only [heur_ue_id_sent, attachCase, EPS_IMSI_ATTACH]
  by_cases ha : atyp = 2
  · rw [if_pos ha]
    cases eps with
    | none => simp [ha]
    | some p =>
      obtain ⟨t, i⟩ := p
      by_cases hs : i = sentinelStr
      · simp only [if_pos hs]
        constructor
        · intro h
          exact absurd h (by simp)
        · rintro ⟨-, h, hne⟩
          rw [Option.some_inj] at h
          subst h
          exact absurd hs hne
      · simp only [if_neg hs, Option.some_inj]
        constructor
        · rintro rfl
          exact ⟨ha, rfl, hs⟩
        · rintro ⟨-, h, -⟩
          exact h
  · rw [if_neg ha]
    simp [ha]

/-- C3 counterexample: an attach request with attach type 2 whose identity
element decodes successfully (to the sentinel string) makes the detector
return `none`, although the claim, with its if-and-only-if, requires an identity
here; so the claim as stated is false. -/
theorem c3_sentinel_violates_iff :
    (some (1, sentinelStr) : Option (Nat × List Char)).isSome = true
    ∧ heur_ue_id_sent (.attachRequest 2 (some (1, sentinelStr))) = none := by decide

/-! ## Claim C4: the already-redacted sentinel guard -/

/-- C4 (amended): the detector discards a decoded identity exactly when its
digit string equals the two-character string `10` (the `str(0xA)` rendering
of the sentinel value); a longer string merely ending in the sentinel is
kept.  A discarded identity is never returned, so no identity with the
sentinel digit string is ever collected by the extraction loop. -/
theorem c4_sentinel_exact_match_only :
    (∀ (atyp t : Nat) (i : List Char),
      heur_ue_id_sent (.attachRequest atyp (some (t, i))) = none ↔
        (atyp ≠ 2 ∨ i = sentinelStr))
    ∧ (∀ (t : Nat) (i : List Char),
      heur_ue_id_sent (.securityModeComplete (some (t, i))) = none ↔ i = sentinelStr)
    ∧ (∀ (pkts : List PacketParse) (t : Nat), (t, sentinelStr) ∉ extract_main pkts) := by
  refine ⟨?_, ?_, ?_⟩
  · intro atyp t i
    simp only [heur_ue_id_sent, attachCase, EPS_IMSI_ATTACH]
    by_cases ha : atyp = 2
    · rw [if_pos ha]
      by_cases hs : i = sentinelStr
      · simp [hs, ha]
      · simp [hs, ha]
    · rw [if_neg ha]
      simp [ha]
  · intro t i
    simp only [heur_ue_id_sent]
    by_cases hs : i = sentinelStr
    · simp [hs]
    · simp [hs]
  · have hno : ∀ m t, heur_ue_id_sent m ≠ some (t, sentinelStr) := by
      intro m t
      cases m with
      | attachRequest atyp eps =>
        simp only [heur_ue_id_sent, attachCase, EPS_IMSI_ATTACH]
        split_ifs with ha
        · cases eps with
          | none => simp
          | some p =>
            obtain ⟨t2, i⟩ := p
            by_cases hs : i = sentinelStr
            · simp [hs]
            · simp only [if_neg hs, Option.some_inj, ne_eq]
              intro h
              exact hs (congrArg Prod.snd h)
        · simp
      | secProt inner =>
        cases inner with
        | none => simp [heur_ue_id_sent]
        | some p =>
          obtain ⟨atyp, eps⟩ := p
          simp only [heur_ue_id_sent, attachCase, EPS_IMSI_ATTACH]
          split_ifs with ha
          · cases eps with
            | none => simp
            | some q =>
              obtain ⟨t2, i⟩ := q
              by_cases hs : i = sentinelStr
              · simp [hs]
              · simp only [if_neg hs, Option.some_inj, ne_eq]
                intro h
                exact hs (congrArg Prod.snd h)
          · simp
      | securityModeComplete im =>
        cases im with
        | none => simp [heur_ue_id_sent]
        | some p =>
          obtain ⟨t2, i⟩ := p
          simp only [heur_ue_id_sent]
          by_cases hs : i = sentinelStr
          · simp [hs]
          · simp only [if_neg hs, Option.some_inj, ne_eq]
            intro h
            exact hs (congrArg Prod.snd h)
      | other => simp [heur_ue_id_sent]
    intro pkts
    induction pkts with
    | nil => intro t h; simp [extract_main] at h
    | cons p rest ih =>
      intro t h
      cases p with
      | parseError => exact ih t (by simpa [extract_main] using h)
      | ok m =>
        simp only [extract_main] at h
        rcases hm : heur_ue_id_sent m with _ | ti
        · rw [hm] at h
          exact ih t h
        · rw [hm] at h
          rcases List.mem_cons.mp h with h1 | h1
          · exact hno m t (h1 ▸ hm)
          · exact ih t h1

/-- C4 counterexample: a decoded digit string that ends in the sentinel
rendering but is longer than it is kept by the detector, although the claim
requires it to be discarded regardless of the rest of the string. -/
theorem c4_suffix_not_discarded :
    List.isSuffixOf sentinelStr ['1', '1', '0'] = true
    ∧ heur_ue_id_sent (.attachRequest 2 (some (1, ['1', '1', '0'])))
        = some (1, ['1', '1', '0']) := by decide

/-! ## Claim C5: shape of the synthesized alignment patterns -/

/-- The source's shift-1/shift-2 mask agrees with the claim's description:
first two nibbles and last nibble wildcarded, interior kept literal. -/
theorem wildmask12_eq_claimMask (s : List Char) (h : 3 ≤ s.length) :
    wildmask12 s = claimMask s := by
  have hlen : (wildmask12 s).length = s.length := by
    simp only [wildmask12, List.length_cons, List.length_append, List.length_singleton,
      List.length_dropLast, List.length_drop, List.length_nil]
    omega
  have hlen2 : (claimMask s).length = s.length := by
    simp [claimMask]
  apply List.ext_getElem (by rw [hlen, hlen2])
  intro i hi1 hi2
  have his : i < s.length := by rwa [hlen] at hi1
  simp only [claimMask, List.getElem_map, List.getElem_range]
  rcases i with _ | _ | i
  · rw [if_pos (by omega)]
    rfl
  · rw [if_pos (by omega)]
    rfl
  · simp only [wildmask12, List.getElem_cons_succ]
    by_cases hm : i < (s.drop 2).dropLast.length
    · rw [List.getElem_append_left hm, List.getElem_dropLast, List.getElem_drop]
      have hne : ¬ (i + 1 + 1 < 2 ∨ i + 1 + 1 = s.length - 1) := by
        simp only [List.length_dropLast, List.length_drop] at hm
        omega
      rw [if_neg hne, List.getD_eq_getElem s '?' his]
      congr 1
      omega
    · rw [List.getElem_append_right (by omega)]
      have hL : ((s.drop 2).dropLast).length = s.length - 3 := by
        simp only [List.length_dropLast, List.length_drop]
        omega
      have heq : i + 1 + 1 = s.length - 1 := by
        rw [hL] at hm
        omega
      rw [if_pos (Or.inr heq)]
      exact List.getElem_singleton _ _

/-- The source's shift-3 mask agrees with the positional description of
`claimMask3`: literal `0`, literal leading nibble, wildcards at positions 2
and 3 and at the end, remaining interior nibbles shifted one position. -/
theorem wildmask3_eq_claimMask3 (s : List Char) (h : 4 ≤ s.length) :
    wildmask3 s = claimMask3 s := by
  have hhead : s.headD '0' = s.getD 0 '?' := by
    cases s with
    | nil => simp at h
    | cons a t => rfl
  have hlen : (wildmask3 s).length = s.length + 1 := by
    simp only [wildmask3, List.length_cons, List.length_append, List.length_singleton,
      List.length_dropLast, List.length_drop, List.length_nil]
    omega
  have hlen2 : (claimMask3 s).length = s.length + 1 := by
    simp [claimMask3]
  apply List.ext_getElem (by rw [hlen, hlen2])
  intro i hi1 hi2
  simp only [claimMask3, List.getElem_map, List.getElem_range]
  rcases i with _ | _ | _ | _ | i
  · rw [if_pos rfl]
    rfl
  · rw [if_neg (by omega), if_pos rfl]
    simp only [wildmask3, List.getElem_cons_succ, List.getElem_cons_zero]
    exact hhead
  · rw [if_neg (by omega), if_neg (by omega), if_pos (by omega)]
    rfl
  · rw [if_neg (by omega), if_neg (by omega), if_pos (by omega)]
    rfl
  · simp only [wildmask3, List.getElem_cons_succ]
    have hib : i + 4 < s.length + 1 := by
      have := hi1
      rwa [hlen] at this
    by_cases hm : i < (s.drop 3).dropLast.length
    · rw [List.getElem_append_left hm, List.getElem_dropLast, List.getElem_drop]
      have hne1 : ¬ (i + 1 + 1 + 1 + 1 = 0) := by omega
      have hne2 : ¬ (i + 1 + 1 + 1 + 1 = 1) := by omega
      have hne3 : ¬ (i + 1 + 1 + 1 + 1 < 4 ∨ i + 1 + 1 + 1 + 1 = s.length) := by
        simp only [List.length_dropLast, List.length_drop] at hm
        omega
      rw [if_neg hne1, if_neg hne2, if_neg hne3]
      have hlt : i + 1 + 1 + 1 + 1 - 1 < s.length := by
        simp only [List.length_dropLast, List.length_drop] at hm
        omega
      rw [List.getD_eq_getElem s '?' hlt]
      congr 1
      omega
    · rw [List.getElem_append_right (by omega)]
      have heq : i + 1 + 1 + 1 + 1 = s.length := by
        simp only [List.length_dropLast, List.length_drop] at hm
        omega
      rw [if_neg (by omega), if_neg (by omega), if_pos (Or.inr heq)]
      exact List.getElem_singleton _ _

/-- A hex string of fewer than 3 nibbles leaves no literal nibble in the
shift-1/shift-2 mask: the token is exactly three wildcards. -/
theorem wildmask12_short (s : List Char) (h : s.length < 3) :
    wildmask12 s = ['?', '?', '?'] := by
  rw [wildmask12, List.drop_eq_nil_of_le (by omega)]
  rfl

/-- A hex string of fewer than 4 nibbles leaves only the leading nibble
literal in the shift-3 mask: the token is `0`, the leading nibble, and three
wildcards. -/
theorem wildmask3_short (s : List Char) (h : s.length < 4) :
    wildmask3 s = '0' :: s.headD '0' :: ['?', '?', '?'] := by
  rw [wildmask3, List.drop_eq_nil_of_le (by omega)]
  rfl

/-- C5 (amended): every synthesized rule holds exactly 4 patterns; for every
encoded value, each shifted pattern token has exactly the shape of `C5Prop`:
the claim's two-leading-one-trailing wildcard mask for shifts 1 and 2 when
the shifted hex string has at least 3 nibbles and three bare wildcards
otherwise, and for shift 3 a literal `0` and literal leading nibble followed
by wildcarded positions 2-3, interior literals and a trailing wildcard (one
nibble longer than a hex string of at least 4 nibbles; `0 s0 ? ? ?` for a
shorter one). -/
theorem c5_pattern_shapes (v : Nat) : C5Prop v := by
  refine ⟨?_, ?_, ?_, ?_⟩
  · intro t i r hr
    rw [yara_rules] at hr
    rcases ho : identity_octets t i with _ | w
    · rw [ho] at hr
      simp at hr
    · rw [ho] at hr
      rw [Option.map_some', Option.some_inj] at hr
      rw [← hr]
      rfl
  · by_cases h1 : 3 ≤ (pyHex (v <<< 1)).length
    · rw [if_pos h1]
      exact wildmask12_eq_claimMask _ h1
    · rw [if_neg h1]
      exact wildmask12_short _ (by omega)
  · by_cases h2 : 3 ≤ (pyHex (v <<< 2)).length
    · rw [if_pos h2]
      exact wildmask12_eq_claimMask _ h2
    · rw [if_neg h2]
      exact wildmask12_short _ (by omega)
  · by_cases h3 : 4 ≤ (pyHex (v <<< 3)).length
    · rw [if_pos h3]
      exact wildmask3_eq_claimMask3 _ h3
    · rw [if_neg h3]
      exact wildmask3_short _ (by omega)

/-- C5 counterexample: for the encoded value of kind 1, digits `123` (the
integer `0x1932`), the shift-3 pattern is `0c???`, which is not the claim's
mask `??9?` of the shifted hex string `c990`: its first nibble is a literal
`0`, not a wildcard, and it is one nibble longer. -/
theorem c5_shift3_not_claim_shape :
    yaraShift3 ((identity_octets 1 ['1', '2', '3']).getD 0) ≠
      claimMask (pyHex (((identity_octets 1 ['1', '2', '3']).getD 0) <<< 3)) := by decide

/-- C5 witness: the amended statement instantiated at the encoded value of
kind 1, digits `123` (the theorem now has no hypotheses; this closes it at a
concrete value). -/
theorem c5_pattern_shapes_witness : C5Prop 0x1932 :=
  c5_pattern_shapes 0x1932

/-! ## Claim C7: completeness and ordering of the reported matches -/

/-- Membership in the per-pattern offset list is exactly a mask match. -/
theorem mem_patOffsets {p : List PatByte} {hay : List Nat} {m : PatMatch} :
    m ∈ patOffsets p hay ↔ (patMatchAt p hay m.offset = true ∧ m.length = p.length) := by
  constructor
  · intro hm
    rcases List.mem_filterMap.mp hm with ⟨o, _, hif⟩
    by_cases hp : patMatchAt p hay o = true
    · rw [if_pos hp, Option.some_inj] at hif
      subst hif
      exact ⟨hp, rfl⟩
    · rw [if_neg hp] at hif
      exact absurd hif (by simp)
  · rintro ⟨hp, hl⟩
    apply List.mem_filterMap.mpr
    refine ⟨m.offset, ?_, ?_⟩
    · rw [List.mem_range]
      have := hp
      rw [patMatchAt, Bool.and_eq_true] at this
      have hb := of_decide_eq_true this.1
      omega
    · rw [if_pos hp]
      obtain ⟨o, l⟩ := m
      simp only at hl
      rw [hl]

/-- An entry appears in the flattened scan results exactly when it is a
genuine match of the rule set. -/
theorem mem_flatten_matching {crs : List CompiledRule} {hay : List Nat} {e : MatchEntry} :
    e ∈ flattenResults (matchingRules crs hay) ↔ isMatchOf crs hay e := by
  constructor
  · intro he
    rw [flattenResults] at he
    rcases List.mem_flatMap.mp he with ⟨sr, hsr, he2⟩
    rcases List.mem_flatMap.mp he2 with ⟨pp, hpp, he3⟩
    rcases List.mem_map.mp he3 with ⟨m, hm, rfl⟩
    rcases List.mem_filter.mp hsr with ⟨hsr2, -⟩
    rcases List.mem_map.mp hsr2 with ⟨r, hr, rfl⟩
    rw [scanRule] at hpp
    rcases List.mem_map.mp hpp with ⟨cp, hcp, rfl⟩
    rcases mem_patOffsets.mp hm with ⟨hmatch, hlen⟩
    exact ⟨r, hr, cp, hcp, rfl, hlen, hmatch⟩
  · rintro ⟨r, hr, cp, hcp, hpid, hlen, hmatch⟩
    rw [flattenResults]
    apply List.mem_flatMap.mpr
    refine ⟨scanRule r hay, ?_, ?_⟩
    · rw [matchingRules]
      apply List.mem_filter.mpr
      refine ⟨List.mem_map.mpr ⟨r, hr, rfl⟩, ?_⟩
      rw [List.any_eq_true]
      refine ⟨(cp.pid, patOffsets cp.bytes hay), ?_, ?_⟩
      · rw [scanRule]
        exact List.mem_map.mpr ⟨cp, hcp, rfl⟩
      · have hmem : (⟨e.offset, cp.bytes.length⟩ : PatMatch) ∈ patOffsets cp.bytes hay :=
          mem_patOffsets.mpr ⟨hmatch, rfl⟩
        have hne := List.ne_nil_of_mem hmem
        simp only [Bool.not_eq_true']
        rw [List.isEmpty_eq_false_iff_exists_mem]
        exact ⟨_, hmem⟩
    · apply List.mem_flatMap.mpr
      refine ⟨(cp.pid, patOffsets cp.bytes hay), ?_, ?_⟩
      · rw [scanRule]
        exact List.mem_map.mpr ⟨cp, hcp, rfl⟩
      · apply List.mem_map.mpr
        refine ⟨⟨e.offset, cp.bytes.length⟩, mem_patOffsets.mpr ⟨hmatch, rfl⟩, ?_⟩
        obtain ⟨eo, el, ep⟩ := e
        simp only at hpid hlen
        rw [hpid, hlen]

/-- C7 (amended): the list returned by `matches_from` is a permutation of
every match of every pattern of the rule set (overlapping matches from
different patterns included: an entry is in the output exactly when its
pattern mask matches at its offset), and it is sorted by ascending offset.
Ties at the same offset keep the scanner's rule and pattern iteration order
(a stable sort by offset only), not the pattern-id order. -/
theorem c7_scan_complete_sorted (crs : List CompiledRule) (hay : List Nat) :
    List.Perm (matches_from (matchingRules crs hay)) (flattenResults (matchingRules crs hay))
    ∧ List.Pairwise (fun a b => a.offset ≤ b.offset) (matches_from (matchingRules crs hay))
    ∧ ∀ e, e ∈ matches_from (matchingRules crs hay) ↔ isMatchOf crs hay e := by
  refine ⟨List.perm_insertionSort _ _, ?_, ?_⟩
  · haveI : IsTotal MatchEntry (fun a b => a.offset ≤ b.offset) :=
      ⟨fun a b => Nat.le_total _ _⟩
    haveI : IsTrans MatchEntry (fun a b => a.offset ≤ b.offset) :=
      ⟨fun _ _ _ hab hbc => Nat.le_trans hab hbc⟩
    exact List.sorted_insertionSort _ _
  · intro e
    rw [matches_from, List.mem_insertionSort]
    exact mem_flatten_matching

/-- C7 counterexample: with a first rule whose `$shift1` pattern and a second
rule whose `$ident3` pattern both match at offset 0, the returned list keeps
the iteration order `$shift1`, `$ident3`, which is not sorted by pattern id;
so ties are not broken by pattern id as the claim states. -/
theorem c7_tie_order_counterexample :
    matches_from (matchingRules c7Rules [170]) =
      [⟨0, 1, "$shift1".toList⟩, ⟨0, 1, "$ident3".toList⟩]
    ∧ ¬ List.Pairwise
        (fun a b => a.offset < b.offset ∨ (a.offset = b.offset ∧ lexLe a.pid b.pid = true))
        (matches_from (matchingRules c7Rules [170])) := by
  refine ⟨by decide, ?_⟩
  intro hp
  rw [show matches_from (matchingRules c7Rules [170]) =
    [⟨0, 1, "$shift1".toList⟩, ⟨0, 1, "$ident3".toList⟩] from by decide] at hp
  have h := (List.pairwise_cons.mp hp).1 _ (List.mem_singleton_self _)
  rcases h with h | ⟨-, h⟩
  · exact absurd h (by decide)
  · exact absurd h (by decide)

/-! ## Claim C8: run aggregation and per-file error handling -/

/-- C8 (amended): when every input file is readable and the needle compiles,
the run completes without aborting, produces one report per input file in
order, and its exit status is 0 exactly when no file had a residual match
after overwrite (a `failed` report sets exit status 2 but does not stop the
remaining files).  A file whose pcap parsing fails with a Scapy error is
skipped during identity collection but still scanned, and does not by itself
change the exit status; an unreadable file, by contrast, raises an uncaught
exception that aborts the run (see the counterexample). -/
theorem c8_run_aggregation (files : List HFile) (ids : List (Nat × List Char))
    (rules : List YaraRule) (crs : List CompiledRule)
    (h1 : phase1Aux [] files = .ok ids)
    (h2 : buildRules ids = some rules)
    (h3 : compileRules rules = some crs)
    (h4 : ∀ f ∈ files, f.content.isSome = true) :
    ∃ reps, redact_main files = .ok (if reps.any (· = .failed) then 2 else 0, reps)
      ∧ reps.length = files.length
      ∧ ((if reps.any (· = .failed) then 2 else 0) = 0 ↔ ∀ r ∈ reps, r ≠ .failed) := by
  have hp2 : ∀ (fs : List HFile), (∀ f ∈ fs, f.content.isSome = true) →
      ∃ reps, phase2 rules fs = .ok reps ∧ reps.length = fs.length := by
    intro fs
    induction fs with
    | nil => exact fun _ => ⟨[], rfl, rfl⟩
    | cons f fs ih =>
      intro hall
      obtain ⟨reps, hreps, hlenr⟩ := ih (fun g hg => hall g (List.mem_cons_of_mem f hg))
      have hc : f.content.isSome = true := hall f (List.mem_cons_self f fs)
      rcases hcont : f.content with _ | bytes
      · rw [hcont] at hc
        simp at hc
      · have hpf : ∃ r, processFile rules f = .ok r := by
          simp only [processFile, hcont, h3]
          by_cases hb : matches_from (matchingRules crs bytes) = []
          · rw [if_pos hb]
            exact ⟨_, rfl⟩
          · rw [if_neg hb]
            by_cases ha : matchingRules crs
                (overwriteBytes bytes (matches_from (matchingRules crs bytes)) 0xAA) = []
            · rw [if_pos ha]
              exact ⟨_, rfl⟩
            · rw [if_neg ha]
              exact ⟨_, rfl⟩
        obtain ⟨r, hr⟩ := hpf
        refine ⟨r :: reps, ?_, by simp [hlenr]⟩
        simp only [phase2, hr, hreps]
  obtain ⟨reps, hreps, hlenr⟩ := hp2 files h4
  refine ⟨reps, ?_, hlenr, ?_⟩
  · simp only [redact_main, h1, h2, hreps]
  · by_cases hf : reps.any (· = .failed) = true
    · rw [if_pos hf]
      rw [List.any_eq_true] at hf
      obtain ⟨r, hrm, hr⟩ := hf
      constructor
      · intro h20
        exact absurd h20 (by omega)
      · intro hall
        exact absurd (of_decide_eq_true hr) (hall r hrm)
    · rw [if_neg hf]
      rw [Bool.not_eq_true, List.any_eq_false] at hf
      constructor
      · intro _ r hrm
        intro hre
        exact hf r hrm (by rw [hre]; exact decide_eq_true rfl)
      · intro _
        rfl

/-- C8 witness: the amended statement instantiated at a one-file run with no
identities and a readable empty file. -/
theorem c8_run_aggregation_witness :
    (phase1Aux [] [⟨.ok [], some []⟩] = .ok []
      ∧ buildRules [] = some []
      ∧ compileRules [] = some []
      ∧ ∀ f ∈ [(⟨.ok [], some []⟩ : HFile)], f.content.isSome = true)
    ∧ ∃ reps, redact_main [⟨.ok [], some []⟩] =
          .ok (if reps.any (· = .failed) then 2 else 0, reps)
        ∧ reps.length = [(⟨.ok [], some []⟩ : HFile)].length
        ∧ ((if reps.any (· = .failed) then 2 else 0) = 0 ↔ ∀ r ∈ reps, r ≠ .failed) :=
  ⟨⟨rfl, rfl, rfl, by decide⟩,
    c8_run_aggregation [⟨.ok [], some []⟩] [] [] [] rfl rfl rfl (by decide)⟩

/-- C8 counterexample: a run whose first file is unreadable aborts with the
uncaught exception before the second (scannable, report-worthy) file is
processed; the claim instead requires the unreadable file to be reported per
file with a non-zero exit status while the remaining files are still scanned,
overwritten and verified. -/
theorem c8_unreadable_aborts :
    redact_main [⟨.readError, some [170]⟩, ⟨.ok [], some [1, 2, 3]⟩]
      = .error .readCrash := by decide

/-! ## Claim C10: rule names depend only on the kind code -/

/-- Every identity that reaches rule synthesis yields one rule in the built
list. -/
theorem buildRules_mem :
    ∀ (ids : List (Nat × List Char)) (rules : List YaraRule),
      buildRules ids = some rules → ∀ t i, (t, i) ∈ ids →
        ∃ r ∈ rules, yara_rules t i = some r := by
  intro ids
  induction ids with
  | nil =>
    intro rules _ t i hm
    simp at hm
  | cons ti rest ih =>
    intro rules h t i hm
    rw [buildRules] at h
    rcases hy : yara_rules ti.1 ti.2 with _ | r0
    · rw [hy] at h
      simp at h
    rcases hb : buildRules rest with _ | rl
    · rw [hy, hb] at h
      simp at h
    simp only [hy, hb, Option.map_some', Option.some_inj] at h
    subst h
    rcases List.mem_cons.mp hm with he | hmr
    · refine ⟨r0, List.mem_cons_self _ _, ?_⟩
      rw [← he] at hy
      exact hy
    · obtain ⟨r, hrm, hre⟩ := ih rl hb t i hmr
      exact ⟨r, List.mem_cons_of_mem _ hrm, hre⟩

/-- The synthesized rule name depends only on the kind code. -/
theorem yara_rules_name :
    ∀ (t : Nat) (i : List Char) (r : YaraRule),
      yara_rules t i = some r → r.name = "mobile_id_type".toList ++ pyStr t := by
  intro t i r h
  rw [yara_rules] at h
  rcases ho : identity_octets t i with _ | v
  · rw [ho] at h
    simp at h
  · rw [ho, Option.map_some', Option.some_inj] at h
    rw [← h]

/-- Two distinct identities with the same kind force a duplicate rule name. -/
theorem buildRules_dup :
    ∀ (ids : List (Nat × List Char)) (rules : List YaraRule),
      buildRules ids = some rules →
      ∀ (t : Nat) (i1 i2 : List Char), i1 ≠ i2 → (t, i1) ∈ ids → (t, i2) ∈ ids →
        ¬ (rules.map YaraRule.name).Nodup := by
  intro ids
  induction ids with
  | nil =>
    intro rules _ t i1 i2 _ h1 _
    simp at h1
  | cons ti rest ih =>
    intro rules h t i1 i2 hne h1 h2
    rw [buildRules] at h
    rcases hy : yara_rules ti.1 ti.2 with _ | r0
    · rw [hy] at h
      simp at h
    rcases hb : buildRules rest with _ | rl
    · rw [hy, hb] at h
      simp at h
    simp only [hy, hb, Option.map_some', Option.some_inj] at h
    subst h
    have hhead : ∀ (j1 j2 : List Char), j1 ≠ j2 → (t, j1) = ti → (t, j2) ∈ rest →
        ¬ ((r0 :: rl).map YaraRule.name).Nodup := by
      intro j1 j2 hjne hej hmr hnodup
      obtain ⟨r2, hr2m, hr2e⟩ := buildRules_mem rest rl hb t j2 hmr
      rw [List.map_cons, List.nodup_cons] at hnodup
      apply hnodup.1
      apply List.mem_map.mpr
      refine ⟨r2, hr2m, ?_⟩
      rw [yara_rules_name t j2 r2 hr2e, yara_rules_name ti.1 ti.2 r0 hy, ← hej]
    rcases List.mem_cons.mp h1 with he1 | h1r
    · have h2r : (t, i2) ∈ rest := by
        rcases List.mem_cons.mp h2 with he2 | h2r
        · exact absurd (congrArg Prod.snd (he1.trans he2.symm)) hne
        · exact h2r
      exact hhead i1 i2 hne he1 h2r
    · rcases List.mem_cons.mp h2 with he2 | h2r
      · exact hhead i2 i1 (Ne.symm hne) he2 h1r
      · intro hnodup
        rw [List.map_cons, List.nodup_cons] at hnodup
        exact ih rl hb t i1 i2 hne h1r h2r hnodup.2

/-- C10: each identity's rule name is `mobile_id_type` followed by the kind
code alone, so a deduplicated identity set holding two distinct identities of
the same kind synthesizes two rules with the same name and rule-set
compilation fails; a run can therefore redact at most one identity per kind
code. -/
theorem c10_duplicate_rule_names (t : Nat) (i1 i2 : List Char)
    (ids : List (Nat × List Char)) (rules : List YaraRule)
    (hne : i1 ≠ i2) (hm1 : (t, i1) ∈ ids) (hm2 : (t, i2) ∈ ids)
    (hb : buildRules ids = some rules) :
    (∀ (t2 : Nat) (i : List Char) (r : YaraRule),
      yara_rules t2 i = some r → r.name = "mobile_id_type".toList ++ pyStr t2)
    ∧ ¬ (rules.map YaraRule.name).Nodup
    ∧ compileRules rules = none := by
  have hdup := buildRules_dup ids rules hb t i1 i2 hne hm1 hm2
  refine ⟨yara_rules_name, hdup, ?_⟩
  rw [compileRules, if_neg hdup]

/-- C10 witness: instantiated at the identities `(1, "1")` and `(1, "2")`. -/
theorem c10_duplicate_rule_names_witness :
    ((['1'] : List Char) ≠ ['2']
      ∧ ((1, ['1']) : Nat × List Char) ∈ [((1, ['1']) : Nat × List Char), (1, ['2'])]
      ∧ ((1, ['2']) : Nat × List Char) ∈ [((1, ['1']) : Nat × List Char), (1, ['2'])]
      ∧ buildRules [((1, ['1']) : Nat × List Char), (1, ['2'])] =
          some ((buildRules [((1, ['1']) : Nat × List Char), (1, ['2'])]).getD []))
    ∧ ((∀ (t2 : Nat) (i : List Char) (r : YaraRule),
        yara_rules t2 i = some r → r.name = "mobile_id_type".toList ++ pyStr t2)
      ∧ ¬ (((buildRules [((1, ['1']) : Nat × List Char), (1, ['2'])]).getD []).map
            YaraRule.name).Nodup
      ∧ compileRules ((buildRules [((1, ['1']) : Nat × List Char), (1, ['2'])]).getD [])
          = none) :=
  ⟨⟨by decide, by decide, by decide, by decide⟩,
    c10_duplicate_rule_names 1 ['1'] ['2'] [((1, ['1']) : Nat × List Char), (1, ['2'])]
      ((buildRules [((1, ['1']) : Nat × List Char), (1, ['2'])]).getD [])
      (by decide) (by decide) (by decide) (by decide)⟩

/-! ## Claim C1: the end-to-end scenario of §8 -/

/-- C1 fails on the code.  The encoder builds the 16-nibble wire string
`0910101032547698` for the scenario IMSI `001010123456789`, but returns it as
an `int`, and `f"{x:x}"` drops the leading zero nibble: the `$ident1` hex
token has 15 nibbles.  A YARA hex string must hold whole bytes, so compiling
the needle raises and the run aborts at the first file: the 64-byte file with
the identity embedded byte-aligned at offset 5 is never scanned, no match is
reported and nothing is overwritten or verified, against the claimed
"exactly 1 match, then zero matches, file Verified". -/
theorem c1_end_to_end_crashes :
    identity_octets_chars 1 imsiDigits = some ("0910101032547698".toList)
    ∧ (pyHex ((identity_octets 1 imsiDigits).getD 0)).length = 15
    ∧ c1File.length = 64
    ∧ (c1File.drop 5).take 8 = imsiWireBytes
    ∧ redact_main [c1Input] = .error .compileCrash := by decide

/-! ## Instantiations of the universally quantified claim theorems -/

/-- C3 instantiation: a well-formed combined attach request with a decodable
non-sentinel identity is detected. -/
theorem c3_detector_attach_characterization_witness :
    heur_ue_id_sent (.attachRequest 2 (some (5, ['1', '2', '3'])))
      = some (5, ['1', '2', '3']) :=
  (c3_detector_attach_characterization 2 (some (5, ['1', '2', '3'])) (5, ['1', '2', '3'])).mpr
    ⟨rfl, rfl, by decide⟩

/-- C4 instantiation: no sentinel identity is collected from an empty packet
list. -/
theorem c4_sentinel_exact_match_only_witness :
    ((1 : Nat), sentinelStr) ∉ extract_main [] :=
  c4_sentinel_exact_match_only.2.2 [] 1

/-- C7 instantiation: the scan of the concrete two-rule set over the one-byte
haystack is complete and sorted by offset. -/
theorem c7_scan_complete_sorted_witness :
    List.Perm (matches_from (matchingRules c7Rules [170]))
        (flattenResults (matchingRules c7Rules [170]))
      ∧ List.Pairwise (fun a b => a.offset ≤ b.offset)
          (matches_from (matchingRules c7Rules [170]))
      ∧ ∀ e, e ∈ matches_from (matchingRules c7Rules [170]) ↔ isMatchOf c7Rules [170] e :=
  c7_scan_complete_sorted c7Rules [170]

end Redact
